import Mathlib

/-!
Shallow embedding of `src/app.py` (accent-detector pipeline).

The repository is a single Python file: a keyword-based accent classifier
(`simple_accent_classifier`), three adapter functions delegating to external
libraries (`download_video`, `extract_audio`, `transcribe_audio`), and an
orchestrator (`process_video`) with try/except/finally cleanup of temporary
files.  We embed the classifier as a pure Lean function, the adapters as
parameters returning `Except`, exceptions as an error type carrying the
Python exception message, and the filesystem as the list of existing paths.
-/

namespace AccentDetector

/-! ### Strings: Python `word in text` substring test and `str.lower()` -/

/-- Predicate `startsAt pat s`: `pat` is an initial segment of `s` (character lists). -/
def startsAt : List Char → List Char → Bool
  | [], _ => true
  | _ :: _, [] => false
  | p :: ps, c :: cs => p == c && startsAt ps cs

/-- Predicate `containsSub pat s`: `pat` occurs as a contiguous sublist of `s`.
Embedding of Python's `pat in s` substring test on character lists. -/
def containsSub (pat : List Char) : List Char → Bool
  | [] => startsAt pat []
  | c :: cs => startsAt pat (c :: cs) || containsSub pat cs

/-- Python `word in text` on strings. -/
def occursIn (pat s : String) : Bool :=
  containsSub pat.data s.data

/-- Number of positions of `s` at which `pat` occurs (overlaps counted).
Used only to state the "counts presence, not multiplicity" property. -/
def occCountAux (pat : List Char) : List Char → Nat
  | [] => if startsAt pat [] then 1 else 0
  | c :: cs => (if startsAt pat (c :: cs) then 1 else 0) + occCountAux pat cs

/-- Number of occurrences of `pat` inside `s` (overlaps counted). -/
def occCount (pat s : String) : Nat :=
  occCountAux pat.data s.data

/-- Embedding of Python `str.lower()` (ASCII case mapping, the range the
lexicon's keywords live in): lower-case every character. -/
def pyLower (s : String) : String :=
  ⟨s.data.map Char.toLower⟩

/-! ### The classifier, `simple_accent_classifier` (src/app.py lines 77-116) -/

def british_keywords : List String :=
  ["colour", "favourite", "realise", "aluminium", "lorry", "biscuit"]

def american_keywords : List String :=
  ["color", "favorite", "realize", "aluminum", "truck", "cookie"]

def australian_keywords : List String :=
  ["mate", "arvo", "barbie", "brekkie"]

/-- Embedding of `sum(word in text for word in keywords)`: each keyword contributes
`1` when it occurs in `text`, `0` otherwise. -/
def keywordScore (kws : List String) (text : String) : Nat :=
  (kws.map (fun w => if occursIn w text then 1 else 0)).sum

/-- Embedding of `max(scores, key=scores.get)` over the dict
`{'British': b, 'American': a, 'Australian': au}`: Python iterates in
insertion order and replaces the running best only on a strictly greater
score, so the earliest label wins ties.  Returns the label and its score. -/
def maxLabel (b a au : Nat) : String × Nat :=
  let best1 : String × Nat := ("British", b)
  let best2 : String × Nat := if a > best1.2 then ("American", a) else best1
  if au > best2.2 then ("Australian", au) else best2

/-- Scores of the three labels on the lower-cased transcript, and their sum. -/
def britishScore (text : String) : Nat :=
  keywordScore british_keywords (pyLower text)

def americanScore (text : String) : Nat :=
  keywordScore american_keywords (pyLower text)

def australianScore (text : String) : Nat :=
  keywordScore australian_keywords (pyLower text)

def totalScore (text : String) : Nat :=
  britishScore text + americanScore text + australianScore text

/-- Score of the winning label (the one `max` selects). -/
def winningScore (text : String) : Nat :=
  (maxLabel (britishScore text) (americanScore text) (australianScore text)).2

/-- Embedding of `simple_accent_classifier` (src/app.py lines 77-116).
`int(scores[accent] / total * 100)` truncates a float; over the reachable
range (winning score and total each at most 16 = the lexicon size) the float
computation agrees with natural floor division `score * 100 / total`,
which is what we write. -/
def simple_accent_classifier (text : String) : String × Nat × String :=
  let t := pyLower text
  let british_score := keywordScore british_keywords t
  let american_score := keywordScore american_keywords t
  let australian_score := keywordScore australian_keywords t
  let total := british_score + american_score + australian_score
  if total = 0 then
    ("No accent detected", 0, "No accent keywords detected in the transcription.")
  else
    let best := maxLabel british_score american_score australian_score
    let confidence := best.2 * 100 / total
    (best.1, confidence,
      "Detected keywords suggest " ++ best.1 ++
        " accent with confidence " ++ toString confidence ++ "%.")

/-! ### The classifier as an explicit call on the process-wide lexicon

The keyword lexicon is static, read-only data (src/app.py lines 90-92).
`classifyCall` models one call of the classifier as a state transition on the
observable process state (the lexicon): it returns the result together with
the state visible to later calls. -/

structure ClassifierLexicon where
  british : List String
  american : List String
  australian : List String
deriving DecidableEq

def defaultLexicon : ClassifierLexicon :=
  { british := british_keywords
    american := american_keywords
    australian := australian_keywords }

/-- The classifier generalized over the lexicon it reads. -/
def classifyWith (lex : ClassifierLexicon) (text : String) : String × Nat × String :=
  let t := pyLower text
  let british_score := keywordScore lex.british t
  let american_score := keywordScore lex.american t
  let australian_score := keywordScore lex.australian t
  let total := british_score + american_score + australian_score
  if total = 0 then
    ("No accent detected", 0, "No accent keywords detected in the transcription.")
  else
    let best := maxLabel british_score american_score australian_score
    let confidence := best.2 * 100 / total
    (best.1, confidence,
      "Detected keywords suggest " ++ best.1 ++
        " accent with confidence " ++ toString confidence ++ "%.")

/-- One call of the classifier, observed as a transition on process state. -/
def classifyCall (lex : ClassifierLexicon) (text : String) :
    (String × Nat × String) × ClassifierLexicon :=
  (classifyWith lex text, lex)

/-! ### Errors, filesystem, and the adapters -/

/-- The exceptions `process_video` can catch: yt_dlp fetch failures, the
`RuntimeError` raised by `extract_audio` when the container has no audio
stream (src/app.py line 51), Whisper transcription failures, and any other
unexpected exception.  `message` is Python's `str(e)`. -/
inductive PyErr where
  | fetchError (msg : String)
  | noAudioTrack (file : String)
  | transcriptionError (msg : String)
  | unexpected (msg : String)
deriving DecidableEq

def PyErr.message : PyErr → String
  | .fetchError m => m
  | .noAudioTrack f => "No audio stream found in " ++ f
  | .transcriptionError m => m
  | .unexpected m => m

/-- The filesystem, as the list of paths that currently exist. -/
abbrev FS := List String

/-- Embedding of `os.path.exists`. -/
def fileExists (fs : FS) (p : String) : Bool :=
  fs.contains p

/-- Embedding of `os.remove`. -/
def removeFile (fs : FS) (p : String) : FS :=
  fs.filter (fun q => q != p)

/-- A video clip as `extract_audio` sees it: whether `clip.audio is None`. -/
structure Clip where
  hasAudio : Bool

/-- Outcome of `extract_audio`: the returned path or the raised error, and
whether `clip.close()` ran (resource release). -/
structure ExtractOutcome where
  result : Except PyErr String
  clipClosed : Bool

/-- Embedding of `extract_audio` (src/app.py lines 34-55): open the clip;
if it has no audio stream, close it and raise
`RuntimeError(f"No audio stream found in {video_file}")`; otherwise write
the audio file, close the clip and return the audio path. -/
def extract_audio (clip : Clip) (video_file audio_file : String) : ExtractOutcome :=
  if clip.hasAudio then
    { result := Except.ok audio_file, clipClosed := true }
  else
    { result := Except.error (PyErr.noAudioTrack video_file), clipClosed := true }

/-- The three effectful stages, as adapters: each takes the filesystem and
either returns a value (the produced path, or the transcript) together with
the updated filesystem, or raises an error. -/
structure Env where
  download : String → FS → Except PyErr (String × FS)
  extract : String → FS → Except PyErr (String × FS)
  transcribe : String → FS → Except PyErr (String × FS)

/-- The function `extract_audio` lifted to an adapter: on success the audio file
`audio.wav` is written to the filesystem, on a missing audio track nothing
is written and the error propagates. -/
def extractAdapter (clip : Clip) : String → FS → Except PyErr (String × FS) :=
  fun v fs =>
    match (extract_audio clip v "audio.wav").result with
    | .ok a => .ok (a, a :: fs)
    | .error e => .error e

/-! ### The orchestrator, `process_video` (src/app.py lines 121-148) -/

/-- Everything observable when `process_video` returns: the four components
of its return tuple, the message reported through `st.error` (if any), the
paths bound to `video_file` / `audio_file` at exit, and the filesystem. -/
structure RunResult where
  transcription : Option String
  accent : Option String
  confidence : Option Nat
  explanation : Option String
  reported : Option String
  videoFile : Option String
  audioFile : Option String
  fs : FS
deriving DecidableEq

/-- The `finally` block (src/app.py lines 143-148): for each of
`video_file` and `audio_file`, if it is bound to a truthy (non-empty) path
that exists, remove it. -/
def cleanupFiles (video audio : Option String) (fs : FS) : FS :=
  let fs1 := match video with
    | some p => if p != "" && fileExists fs p then removeFile fs p else fs
    | none => fs
  match audio with
  | some p => if p != "" && fileExists fs1 p then removeFile fs1 p else fs1
  | none => fs1

/-- Embedding of `process_video` (src/app.py lines 121-148): run the four
stages in order inside try/except/finally; any stage error is caught,
reported via `st.error(f"Error: {e}")`, and turns the result into four
`None`s; the `finally` cleanup always runs. -/
def process_video (env : Env) (url : String) (fs₀ : FS) : RunResult :=
  match env.download url fs₀ with
  | .error e =>
      { transcription := none, accent := none, confidence := none,
        explanation := none,
        reported := some ("Error: " ++ e.message),
        videoFile := none, audioFile := none,
        fs := cleanupFiles none none fs₀ }
  | .ok (v, fs₁) =>
    match env.extract v fs₁ with
    | .error e =>
        { transcription := none, accent := none, confidence := none,
          explanation := none,
          reported := some ("Error: " ++ e.message),
          videoFile := some v, audioFile := none,
          fs := cleanupFiles (some v) none fs₁ }
    | .ok (a, fs₂) =>
      match env.transcribe a fs₂ with
      | .error e =>
          { transcription := none, accent := none, confidence := none,
            explanation := none,
            reported := some ("Error: " ++ e.message),
            videoFile := some v, audioFile := some a,
            fs := cleanupFiles (some v) (some a) fs₂ }
      | .ok (t, fs₃) =>
          let res := simple_accent_classifier t
          { transcription := some t, accent := some res.1,
            confidence := some res.2.1, explanation := some res.2.2,
            reported := none,
            videoFile := some v, audioFile := some a,
            fs := cleanupFiles (some v) (some a) fs₃ }

/-! ### Helper lemmas: substring occurrence counts -/

theorem containsSub_eq_occCountAux (pat s : List Char) :
    containsSub pat s = decide (0 < occCountAux pat s) := by
  induction s with
  | nil =>
    by_cases h : startsAt pat [] = true
    · simp [containsSub, occCountAux, h]
    · simp only [Bool.not_eq_true] at h
      simp [containsSub, occCountAux, h]
  | cons c cs ih =>
    by_cases h : startsAt pat (c :: cs) = true
    · simp [containsSub, occCountAux, h]
    · simp only [Bool.not_eq_true] at h
      simp [containsSub, occCountAux, h, ih]

theorem occursIn_eq_occCount (pat s : String) :
    occursIn pat s = decide (0 < occCount pat s) :=
  containsSub_eq_occCountAux pat.data s.data

theorem keywordScore_eq_sum_min (kws : List String) (text : String) :
    keywordScore kws text = (kws.map (fun w => min 1 (occCount w text))).sum := by
  induction kws with
  | nil => rfl
  | cons w ws ih =>
    have hw : (if occursIn w text then 1 else 0) = min 1 (occCount w text) := by
      rw [occursIn_eq_occCount]
      by_cases h : 0 < occCount w text
      · simp [h, Nat.min_eq_left h]
      · have h0 : occCount w text = 0 := by omega
        simp [h0]
    simp only [keywordScore, List.map_cons, List.sum_cons] at *
    rw [hw, ih]

theorem keywordScore_eq_zero_iff (kws : List String) (text : String) :
    keywordScore kws text = 0 ↔ ∀ w ∈ kws, occursIn w text = false := by
  induction kws with
  | nil => simp [keywordScore]
  | cons w ws ih =>
    simp only [keywordScore, List.map_cons, List.sum_cons, List.mem_cons] at *
    constructor
    · intro h
      have h1 : (if occursIn w text then 1 else 0) = 0 := by omega
      have h2 : (ws.map (fun w => if occursIn w text then 1 else 0)).sum = 0 := by omega
      intro x hx
      rcases hx with hx | hx
      · subst hx
        by_cases hocc : occursIn x text = true
        · simp [hocc] at h1
        · simpa using hocc
      · exact ih.mp h2 x hx
    · intro h
      have h1 : occursIn w text = false := h w (Or.inl rfl)
      have h2 : (ws.map (fun w => if occursIn w text then 1 else 0)).sum = 0 :=
        ih.mpr (fun x hx => h x (Or.inr hx))
      simp [h1, h2]

/-! ### Helper lemmas: lower-casing is idempotent -/

theorem charToLower_toLower (c : Char) : (c.toLower).toLower = c.toLower := by
  unfold Char.toLower
  by_cases h : c.toNat ≥ 65 ∧ c.toNat ≤ 90
  · rw [if_pos h]
    have hv : (c.toNat + 32).isValidChar := Or.inl (by omega)
    have ht : (Char.ofNat (c.toNat + 32)).toNat = c.toNat + 32 := by
      rw [Char.ofNat, dif_pos hv]; rfl
    rw [if_neg (by omega)]
  · rw [if_neg h, if_neg h]

theorem pyLower_pyLower (s : String) : pyLower (pyLower s) = pyLower s := by
  simp [pyLower, List.map_map, Function.comp_def, charToLower_toLower]

/-! ### Helper lemmas: selecting the maximal label -/

theorem maxLabel_snd (b a au : Nat) : (maxLabel b a au).2 = max b (max a au) := by
  unfold maxLabel
  dsimp only
  split
  · split
    · omega
    · simp only at *; omega
  · split
    · simp only at *; omega
    · simp only at *; omega

theorem maxLabel_le_sum (b a au : Nat) : (maxLabel b a au).2 ≤ b + a + au := by
  rw [maxLabel_snd]; omega

theorem maxLabel_fst_eq_firstMax (b a au : Nat) :
    (maxLabel b a au).1 =
      (if b = max b (max a au) then "British"
       else if a = max b (max a au) then "American"
       else "Australian") := by
  unfold maxLabel
  dsimp only
  by_cases h1 : a > b
  · simp only [if_pos h1]
    by_cases h2 : au > a
    · simp only [if_pos h2]
      rw [if_neg (by omega), if_neg (by omega)]
    · simp only [if_neg h2]
      rw [if_neg (by omega), if_pos (by omega)]
  · simp only [if_neg h1]
    by_cases h2 : au > b
    · simp only [if_pos h2]
      rw [if_neg (by omega), if_neg (by omega)]
    · simp only [if_neg h2]
      rw [if_pos (by omega)]

/-- The classifier, re-expressed through the named score functions
(definitional equality). -/
theorem classifier_eq (text : String) :
    simple_accent_classifier text =
      if totalScore text = 0 then
        ("No accent detected", 0, "No accent keywords detected in the transcription.")
      else
        ((maxLabel (britishScore text) (americanScore text) (australianScore text)).1,
          winningScore text * 100 / totalScore text,
          "Detected keywords suggest " ++
            (maxLabel (britishScore text) (americanScore text) (australianScore text)).1 ++
            " accent with confidence " ++
            toString (winningScore text * 100 / totalScore text) ++ "%.") := rfl

/-! ### Helper lemmas: filesystem cleanup -/

theorem contains_removeFile_self (fs : FS) (p : String) :
    (removeFile fs p).contains p = false := by
  induction fs with
  | nil => rfl
  | cons q qs ih =>
    by_cases h : q = p
    · subst h
      simp [removeFile, List.filter]
    · have hq : (q != p) = true := by simp [h]
      simp only [removeFile, List.filter, hq] at *
      simp only [List.contains_cons, ih, Bool.or_false]
      simp [h, Ne.symm h]

theorem contains_filter_of_contains {fs : FS} {f : String → Bool} {x : String}
    (h : (fs.filter f).contains x = true) : fs.contains x = true := by
  simp only [List.contains_eq_any_beq, List.any_eq_true] at *
  obtain ⟨y, hy, hxy⟩ := h
  exact ⟨y, List.mem_of_mem_filter hy, hxy⟩

/-- One arm of the `finally` block removes the file it is given (when the
path is truthy). -/
theorem stepRemove_contains_self (fs : FS) (p : String) (hp : p ≠ "") :
    ((if p != "" && fileExists fs p then removeFile fs p else fs) : FS).contains p
      = false := by
  by_cases hex : fileExists fs p = true
  · rw [if_pos (by simp [hp, hex])]
    exact contains_removeFile_self fs p
  · rw [if_neg (by simp [hex])]
    simpa [fileExists] using hex

/-- The `finally` arms never create files: an absent path stays absent. -/
theorem stepRemove_preserves_absent (fs : FS) (q p : String)
    (h : fs.contains p = false) :
    ((if q != "" && fileExists fs q then removeFile fs q else fs) : FS).contains p
      = false := by
  by_cases hq : (q != "" && fileExists fs q) = true
  · rw [if_pos hq]
    by_cases hcp : (removeFile fs q).contains p = true
    · have := contains_filter_of_contains (f := fun x => x != q) hcp
      rw [h] at this
      exact absurd this (by simp)
    · simpa using hcp
  · rw [if_neg hq]
    exact h

theorem contains_cleanupFiles_video (fs : FS) (p : String) (audio : Option String)
    (hp : p ≠ "") :
    (cleanupFiles (some p) audio fs).contains p = false := by
  cases audio with
  | none =>
    simp only [cleanupFiles]
    exact stepRemove_contains_self fs p hp
  | some q =>
    simp only [cleanupFiles]
    exact stepRemove_preserves_absent _ q p (stepRemove_contains_self fs p hp)

theorem contains_cleanupFiles_audio (fs : FS) (video : Option String) (p : String)
    (hp : p ≠ "") :
    (cleanupFiles video (some p) fs).contains p = false := by
  cases video with
  | none =>
    simp only [cleanupFiles]
    exact stepRemove_contains_self fs p hp
  | some q =>
    simp only [cleanupFiles]
    exact stepRemove_contains_self _ p hp

/-- The spec's tie-break rule, in the spec's words: among the labels that
attain the maximum score, the one earliest in the fixed order British,
American, Australian. -/
def firstMaxLabel (text : String) : String :=
  let b := britishScore text
  let a := americanScore text
  let au := australianScore text
  let m := max b (max a au)
  if b = m then "British" else if a = m then "American" else "Australian"

/-! ### The claims -/

/-- C1: on any transcript in which no keyword of any lexicon entry occurs,
`simple_accent_classifier` returns the distinguished
`("No accent detected", 0, fixed message)` triple; being a total function
it never divides by zero and never throws. -/
theorem classifier_no_keywords (text : String)
    (h : ∀ w ∈ british_keywords ++ american_keywords ++ australian_keywords,
      occursIn w (pyLower text) = false) :
    simple_accent_classifier text =
      ("No accent detected", 0,
        "No accent keywords detected in the transcription.") := by
  have hb : britishScore text = 0 :=
    (keywordScore_eq_zero_iff _ _).mpr (fun w hw => h w (by simp [hw]))
  have ha : americanScore text = 0 :=
    (keywordScore_eq_zero_iff _ _).mpr (fun w hw => h w (by simp [hw]))
  have hau : australianScore text = 0 :=
    (keywordScore_eq_zero_iff _ _).mpr (fun w hw => h w (by simp [hw]))
  have ht : totalScore text = 0 := by
    unfold totalScore
    omega
  rw [classifier_eq, if_pos ht]

/-- Witness for C1 at the concrete transcript `"hello there"`. -/
theorem classifier_no_keywords_witness :
    (∀ w ∈ british_keywords ++ american_keywords ++ australian_keywords,
        occursIn w (pyLower "hello there") = false) ∧
      simple_accent_classifier "hello there" =
        ("No accent detected", 0,
          "No accent keywords detected in the transcription.") :=
  ⟨by decide, classifier_no_keywords "hello there" (by decide)⟩

/-- C2: the confidence component always lies in `[0, 100]` (it is a natural
number, so only the upper bound is substantive), and whenever the total
count is positive it equals the floor of `100 × winningCount / totalCount`. -/
theorem classifier_confidence_bounds (text : String) :
    (simple_accent_classifier text).2.1 ≤ 100 ∧
      (0 < totalScore text →
        (simple_accent_classifier text).2.1 =
          100 * winningScore text / totalScore text) := by
  rw [classifier_eq]
  by_cases h : totalScore text = 0
  · simp [h]
  · rw [if_neg h]
    dsimp only
    constructor
    · have hle : winningScore text ≤ totalScore text := by
        unfold winningScore totalScore
        exact maxLabel_le_sum _ _ _
      calc winningScore text * 100 / totalScore text
          ≤ totalScore text * 100 / totalScore text :=
            Nat.div_le_div_right (Nat.mul_le_mul_right _ hle)
        _ ≤ 100 := by
            rw [Nat.mul_comm, Nat.mul_div_cancel _ (by omega)]
    · intro _
      rw [Nat.mul_comm]

/-- Witness for C2 at the concrete transcript `"mate"`. -/
theorem classifier_confidence_bounds_witness :
    (simple_accent_classifier "mate").2.1 ≤ 100 ∧ 0 < totalScore "mate" ∧
      (simple_accent_classifier "mate").2.1 =
        100 * winningScore "mate" / totalScore "mate" :=
  ⟨(classifier_confidence_bounds "mate").1, by decide,
    (classifier_confidence_bounds "mate").2 (by decide)⟩

/-- C6: a label's score counts boolean presence: each keyword contributes
`min 1 (number of its occurrences in the lower-cased transcript)`, so it
contributes 1 when present (even many times, e.g. `"mate mate mate"`, where
`"mate"` occurs 3 times yet the Australian score is 1) and 0 otherwise. -/
theorem keywordScore_boolean_presence (kws : List String) (text : String) :
    keywordScore kws (pyLower text) =
        (kws.map (fun w => min 1 (occCount w (pyLower text)))).sum ∧
      occCount "mate" (pyLower "mate mate mate") = 3 ∧
      australianScore "mate mate mate" = 1 :=
  ⟨keywordScore_eq_sum_min kws (pyLower text), by decide, by decide⟩

/-- C7: matching is case-insensitive: the classifier's output on any
transcript equals its output on the lower-cased transcript, and
`"COLOUR AND MATE"` matches the keywords `"colour"` and `"mate"` exactly as
their lower-case forms do. -/
theorem classifier_case_insensitive (text : String) :
    simple_accent_classifier text = simple_accent_classifier (pyLower text) ∧
      occursIn "colour" (pyLower "COLOUR AND MATE") = true ∧
      occursIn "mate" (pyLower "COLOUR AND MATE") = true := by
  refine ⟨?_, by decide, by decide⟩
  simp only [simple_accent_classifier, pyLower_pyLower]

/-- C8: a transcript containing exactly one keyword, from exactly one label,
and no keyword of any other label (total count 1) makes that label win with
confidence exactly 100. -/
theorem classifier_single_keyword (text : String) (h : totalScore text = 1) :
    (simple_accent_classifier text).2.1 = 100 ∧
      (simple_accent_classifier text).1 =
        (if britishScore text = 1 then "British"
         else if americanScore text = 1 then "American"
         else "Australian") := by
  have hw : winningScore text = 1 := by
    unfold winningScore
    rw [maxLabel_snd]
    unfold totalScore at h
    omega
  rw [classifier_eq, if_neg (by omega)]
  dsimp only
  constructor
  · rw [hw, h]
  · have hcases :
        (britishScore text = 1 ∧ americanScore text = 0 ∧ australianScore text = 0) ∨
        (britishScore text = 0 ∧ americanScore text = 1 ∧ australianScore text = 0) ∨
        (britishScore text = 0 ∧ americanScore text = 0 ∧ australianScore text = 1) := by
      unfold totalScore at h
      omega
    rcases hcases with ⟨h1, h2, h3⟩ | ⟨h1, h2, h3⟩ | ⟨h1, h2, h3⟩ <;>
      rw [maxLabel_fst_eq_firstMax, h1, h2, h3] <;> rfl

/-- Witness for C8 at the concrete transcript `"mate"`. -/
theorem classifier_single_keyword_witness :
    totalScore "mate" = 1 ∧
      (simple_accent_classifier "mate").2.1 = 100 ∧
      (simple_accent_classifier "mate").1 =
        (if britishScore "mate" = 1 then "British"
         else if americanScore "mate" = 1 then "American"
         else "Australian") :=
  ⟨by decide, (classifier_single_keyword "mate" (by decide)).1,
    (classifier_single_keyword "mate" (by decide)).2⟩

/-- C9: the classifier is deterministic and idempotent: a call returns the
lexicon state unchanged, and a second call on the state left by the first
returns the same result triple. -/
theorem classifyCall_pure (lex : ClassifierLexicon) (text : String) :
    (classifyCall lex text).2 = lex ∧
      (classifyCall ((classifyCall lex text).2) text).1 =
        (classifyCall lex text).1 :=
  ⟨rfl, rfl⟩

/-- C10: when the total count is positive, the returned label is the one
earliest in the fixed order British, American, Australian among the labels
attaining the maximum score (Python's `max` over the dict's insertion order
keeps the first maximum). -/
theorem classifier_tie_break (text : String) (h : 0 < totalScore text) :
    (simple_accent_classifier text).1 = firstMaxLabel text := by
  rw [classifier_eq, if_neg (by omega)]
  dsimp only
  rw [maxLabel_fst_eq_firstMax]
  rfl

/-- Witness for C10 at the tie `"color mate"` (American 1, Australian 1):
the winner is `"American"`. -/
theorem classifier_tie_break_witness :
    0 < totalScore "color mate" ∧
      (simple_accent_classifier "color mate").1 = firstMaxLabel "color mate" ∧
      (simple_accent_classifier "color mate").1 = "American" :=
  ⟨by decide, classifier_tie_break "color mate" (by decide), by decide⟩

/-- A concrete download adapter for witnesses: writes the default output
file `downloaded_video.mp4` and returns its path. -/
def demoDownload : String → FS → Except PyErr (String × FS) :=
  fun _ fs => Except.ok ("downloaded_video.mp4", "downloaded_video.mp4" :: fs)

/-- A concrete transcriber for witnesses. -/
def demoTranscribe : String → FS → Except PyErr (String × FS) :=
  fun _ fs => Except.ok ("mate", fs)

/-- A concrete environment in which every stage succeeds. -/
def demoEnv : Env :=
  { download := demoDownload
    extract := extractAdapter { hasAudio := true }
    transcribe := demoTranscribe }

/-- C3: on every path of `process_video` (success, any adapter failure, or
an unexpected fault), whichever of the video file and the audio file were
created during the run (bound to a truthy path) no longer exist when it
returns: the `finally` cleanup always removes them. -/
theorem process_video_cleanup (env : Env) (url : String) (fs₀ : FS) :
    (∀ p, (process_video env url fs₀).videoFile = some p → p ≠ "" →
        (process_video env url fs₀).fs.contains p = false) ∧
    (∀ p, (process_video env url fs₀).audioFile = some p → p ≠ "" →
        (process_video env url fs₀).fs.contains p = false) := by
  cases hd : env.download url fs₀ with
  | error e =>
    simp only [process_video, hd]
    exact ⟨fun p hp => by simp at hp, fun p hp => by simp at hp⟩
  | ok vfs =>
    obtain ⟨v, fs₁⟩ := vfs
    cases hx : env.extract v fs₁ with
    | error e =>
      simp only [process_video, hd, hx]
      constructor
      · intro p hp hne
        obtain rfl : v = p := by simpa using hp
        exact contains_cleanupFiles_video fs₁ v none hne
      · intro p hp
        simp at hp
    | ok afs =>
      obtain ⟨a, fs₂⟩ := afs
      cases ht : env.transcribe a fs₂ with
      | error e =>
        simp only [process_video, hd, hx, ht]
        constructor
        · intro p hp hne
          obtain rfl : v = p := by simpa using hp
          exact contains_cleanupFiles_video fs₂ v (some a) hne
        · intro p hp hne
          obtain rfl : a = p := by simpa using hp
          exact contains_cleanupFiles_audio fs₂ (some v) a hne
      | ok tfs =>
        obtain ⟨t, fs₃⟩ := tfs
        simp only [process_video, hd, hx, ht]
        constructor
        · intro p hp hne
          obtain rfl : v = p := by simpa using hp
          exact contains_cleanupFiles_video fs₃ v (some a) hne
        · intro p hp hne
          obtain rfl : a = p := by simpa using hp
          exact contains_cleanupFiles_audio fs₃ (some v) a hne

/-- Witness for C3: a successful concrete run leaves neither the downloaded
video nor the extracted audio behind. -/
theorem process_video_cleanup_witness :
    ((process_video demoEnv "http://example.com/v" []).videoFile =
        some "downloaded_video.mp4" ∧
      (process_video demoEnv "http://example.com/v" []).fs.contains
        "downloaded_video.mp4" = false) ∧
    ((process_video demoEnv "http://example.com/v" []).audioFile =
        some "audio.wav" ∧
      (process_video demoEnv "http://example.com/v" []).fs.contains
        "audio.wav" = false) :=
  ⟨⟨by decide,
      (process_video_cleanup demoEnv "http://example.com/v" []).1
        "downloaded_video.mp4" (by decide) (by decide)⟩,
    ⟨by decide,
      (process_video_cleanup demoEnv "http://example.com/v" []).2
        "audio.wav" (by decide) (by decide)⟩⟩

/-- C4: `process_video` never returns a partial result: either all four
stages complete and the full tuple (transcript, label, confidence,
explanation) is returned with nothing reported, or a stage failed, the
failure is reported as a human-readable `"Error: ..."` message, and all four
components are absent. -/
theorem process_video_no_partial (env : Env) (url : String) (fs₀ : FS) :
    (∃ t : String,
        (process_video env url fs₀).reported = none ∧
        (process_video env url fs₀).transcription = some t ∧
        (process_video env url fs₀).accent =
          some (simple_accent_classifier t).1 ∧
        (process_video env url fs₀).confidence =
          some (simple_accent_classifier t).2.1 ∧
        (process_video env url fs₀).explanation =
          some (simple_accent_classifier t).2.2) ∨
    (∃ msg : String,
        (process_video env url fs₀).reported = some ("Error: " ++ msg) ∧
        (process_video env url fs₀).transcription = none ∧
        (process_video env url fs₀).accent = none ∧
        (process_video env url fs₀).confidence = none ∧
        (process_video env url fs₀).explanation = none) := by
  cases hd : env.download url fs₀ with
  | error e =>
    right
    exact ⟨e.message, by simp [process_video, hd]⟩
  | ok vfs =>
    obtain ⟨v, fs₁⟩ := vfs
    cases hx : env.extract v fs₁ with
    | error e =>
      right
      exact ⟨e.message, by simp [process_video, hd, hx]⟩
    | ok afs =>
      obtain ⟨a, fs₂⟩ := afs
      cases ht : env.transcribe a fs₂ with
      | error e =>
        right
        exact ⟨e.message, by simp [process_video, hd, hx, ht]⟩
      | ok tfs =>
        obtain ⟨t, fs₃⟩ := tfs
        left
        exact ⟨t, by simp [process_video, hd, hx, ht]⟩

/-- C5: on a video without an audio stream, `extract_audio` closes the clip
and raises the distinct no-audio-track error naming the offending file; when
that happens, `process_video` reports exactly that failure and the
already-downloaded video file no longer exists afterwards. -/
theorem no_audio_track_handling
    (dl tr : String → FS → Except PyErr (String × FS))
    (url : String) (fs₀ fs₁ : FS) (v : String)
    (hdl : dl url fs₀ = Except.ok (v, fs₁)) (hv : v ≠ "") :
    (extract_audio { hasAudio := false } v "audio.wav").result =
        Except.error (PyErr.noAudioTrack v) ∧
    (extract_audio { hasAudio := false } v "audio.wav").clipClosed = true ∧
    PyErr.message (PyErr.noAudioTrack v) = "No audio stream found in " ++ v ∧
    (process_video
        { download := dl, extract := extractAdapter { hasAudio := false },
          transcribe := tr } url fs₀).reported =
      some ("Error: " ++ ("No audio stream found in " ++ v)) ∧
    (process_video
        { download := dl, extract := extractAdapter { hasAudio := false },
          transcribe := tr } url fs₀).fs.contains v = false := by
  have hext : extractAdapter { hasAudio := false } v fs₁ =
      Except.error (PyErr.noAudioTrack v) := rfl
  refine ⟨rfl, rfl, rfl, ?_, ?_⟩
  · simp [process_video, hdl, hext, PyErr.message]
  · have hfs : (process_video
        { download := dl, extract := extractAdapter { hasAudio := false },
          transcribe := tr } url fs₀).fs = cleanupFiles (some v) none fs₁ := by
      simp [process_video, hdl, hext]
    rw [hfs]
    exact contains_cleanupFiles_video fs₁ v none hv

/-- Witness for C5 with a concrete download adapter and empty filesystem. -/
theorem no_audio_track_handling_witness :
    demoDownload "http://example.com/v" [] =
        Except.ok ("downloaded_video.mp4", ["downloaded_video.mp4"]) ∧
    (extract_audio { hasAudio := false } "downloaded_video.mp4"
        "audio.wav").result =
      Except.error (PyErr.noAudioTrack "downloaded_video.mp4") ∧
    (process_video
        { download := demoDownload,
          extract := extractAdapter { hasAudio := false },
          transcribe := demoTranscribe } "http://example.com/v" []).reported =
      some ("Error: " ++
        ("No audio stream found in " ++ "downloaded_video.mp4")) ∧
    (process_video
        { download := demoDownload,
          extract := extractAdapter { hasAudio := false },
          transcribe := demoTranscribe } "http://example.com/v" []).fs.contains
        "downloaded_video.mp4" = false :=
  ⟨rfl,
    (no_audio_track_handling demoDownload demoTranscribe "http://example.com/v"
      [] ["downloaded_video.mp4"] "downloaded_video.mp4" rfl
      (by decide)).1,
    (no_audio_track_handling demoDownload demoTranscribe "http://example.com/v"
      [] ["downloaded_video.mp4"] "downloaded_video.mp4" rfl
      (by decide)).2.2.2.1,
    (no_audio_track_handling demoDownload demoTranscribe "http://example.com/v"
      [] ["downloaded_video.mp4"] "downloaded_video.mp4" rfl
      (by decide)).2.2.2.2⟩

end AccentDetector
